import Mathlib

/-!
# Harvtech display firmware: protocol codec and BLE client manager

A shallow embedding of `display_firmware/src/Config.h`, `Protocol.h`,
`BleClient.h` and the scan callback of `main.cpp`, followed by the theorems
that settle the claims of the specification against that code.

Conventions of the embedding.

* A `uint8_t` is a `Byte` (`Fin 256`); wider machine integers are `Nat` or
  `Int` with the wrap-around written out (`toUInt16`, `toInt16`, ...).
* A `float` is the rational number it denotes.  Every arithmetic operation on
  floats is the exact operation followed by `f32Round`, the IEEE-754 binary32
  rounding (round to nearest, ties to even, with gradual underflow).
* A buffer `(const uint8_t* data, size_t length)` is a `List Byte`.
* Calls into the BLE stack, the delays and the consumer callback are recorded
  as a trace of `Effect`s in program order.
-/

namespace Harvtech

/-! ## Machine integers -/

/-- One octet, the C type `uint8_t`. -/
abbrev Byte := Fin 256

/-- Conversion of an `int` expression to `uint8_t` (reduction modulo 256). -/
def toByte (n : Nat) : Byte := ⟨n % 256, Nat.mod_lt n (by decide)⟩

/-- The cast `(uint8_t)x` widened to `int32_t`. -/
def toUInt8 (n : Nat) : Int := ((n % 256 : Nat) : Int)

/-- The cast `(int8_t)x` widened to `int32_t` (two's complement). -/
def toInt8 (n : Nat) : Int :=
  if n % 256 < 128 then ((n % 256 : Nat) : Int) else ((n % 256 : Nat) : Int) - 256

/-- The cast `(uint16_t)x` widened to `int32_t`. -/
def toUInt16 (n : Nat) : Int := ((n % 65536 : Nat) : Int)

/-- The cast `(int16_t)x` widened to `int32_t` (two's complement). -/
def toInt16 (n : Nat) : Int :=
  if n % 65536 < 32768 then ((n % 65536 : Nat) : Int) else ((n % 65536 : Nat) : Int) - 65536

/-- The cast `(int32_t)x` of a bit pattern (two's complement). -/
def toInt32 (n : Nat) : Int :=
  if n % 4294967296 < 2147483648 then ((n % 4294967296 : Nat) : Int)
  else ((n % 4294967296 : Nat) : Int) - 4294967296

/-! ## Single precision floats -/

/-- Round a rational to the nearest integer, ties to the even neighbour. -/
def roundHalfEven (s : ℚ) : ℤ :=
  let f := ⌊s⌋
  let r := s - f
  if r < 1 / 2 then f
  else if 1 / 2 < r then f + 1
  else if f % 2 = 0 then f else f + 1

/-- IEEE-754 binary32 rounding of a rational: 24 significant bits, least
exponent `-126` (below it the spacing stays `2 ^ (-149)`), round to nearest,
ties to even.  Overflow to infinity (magnitudes from `2 ^ 128` on) is not
represented: the decoder divides integers of at most 16 bits by constants
that are at least `1`, and `parsePacket_value_bound` shows that it never gets
there. -/
def f32Round (q : ℚ) : ℚ :=
  if q = 0 then 0 else
  let e := max (Int.log 2 |q|) (-126)
  let u := (2 : ℚ) ^ (e - 23)
  (roundHalfEven (q / u) : ℚ) * u

namespace F32

/-- A float literal such as `744.3f`: the decimal value, rounded. -/
def lit (q : ℚ) : ℚ := f32Round q

/-- Conversion `int32_t -> float`. -/
def ofInt (n : Int) : ℚ := f32Round (n : ℚ)

/-- Float subtraction. -/
def sub (x y : ℚ) : ℚ := f32Round (x - y)

/-- Float division (the divisors of the firmware are non-zero constants). -/
def div (x y : ℚ) : ℚ := f32Round (x / y)

end F32

/-! ## Config.h -/

def ADDR_CONTROL : Nat := 11
def ADDR_TIME_CHANNEL : Nat := 12

def CMD_STOP_UPLOAD : Nat := 0
def CMD_START_UPLOAD : Nat := 1
def CMD_CLEAR_DATA : Nat := 255

/-- Data field configuration (`struct DataFieldConfig`). -/
structure DataFieldConfig where
  address : Fin 65536
  size : Byte
  k : ℚ
  b : ℚ
  name : String
  unit : String
  deriving DecidableEq

/-- Target fields to monitor. -/
def TARGET_FIELDS : List DataFieldConfig :=
  [ ⟨24,  2, F32.lit 10,          F32.lit 0,  "Speed",   "km/h"⟩,
    ⟨26,  2, F32.lit 1,           F32.lit 0,  "SoC",     "%"⟩,
    ⟨105, 2, F32.lit 1,           F32.lit 0,  "RPM",     "rpm"⟩,
    ⟨113, 2, F32.lit 10,          F32.lit 0,  "Volt",    "V"⟩,
    ⟨115, 2, F32.lit 1000,        F32.lit 0,  "Power",   "KW"⟩,
    ⟨119, 2, F32.lit 10,          F32.lit 0,  "Current", "A"⟩,
    ⟨220, 2, F32.lit (7443 / 10), F32.lit 0,  "Throt",   "V"⟩,
    ⟨222, 1, F32.lit 1,           F32.lit 40, "Temp",    "C"⟩ ]

def NUM_FIELDS : Nat := TARGET_FIELDS.length

/-! ## Protocol.h -/

/-- Create the command that sets up a time data channel. -/
def createChannelSetupCommand (address : Fin 65536) (size : Byte) : List Byte :=
  let low := toByte (address.val &&& 0xFF)
  let high := toByte ((address.val >>> 8) &&& 0xFF)
  let payload : List Byte := [low, toByte (high.val &&& 0x1F), size]
  let cmd : List Byte := []
  let cmd := cmd ++ [toByte (ADDR_TIME_CHANNEL &&& 0xFF)]
  let cmd := cmd ++ [toByte ((ADDR_TIME_CHANNEL >>> 8) &&& 0x1F)]
  cmd ++ payload

/-- Create a write to the control address 11. -/
def createControlCommand (subCmd : Byte) : List Byte :=
  let cmd : List Byte := []
  let cmd := cmd ++ [toByte (ADDR_CONTROL &&& 0xFF)]
  let cmd := cmd ++ [toByte ((ADDR_CONTROL >>> 8) &&& 0x1F)]
  cmd ++ [subCmd]

/-- Result of decoding one notification (`struct ParsedData`). -/
structure ParsedData where
  address : Nat
  value : ℚ
  valid : Bool
  deriving DecidableEq

/-- The byte `data[i]` promoted to `int`; every read of `parsePacket` is
guarded by a length check, outside the buffer the model reads `0`. -/
def byteAt (data : List Byte) (i : Nat) : Nat := (data.getD i 0).val

/-- The lookup loop of `parsePacket`: the first entry with the address. -/
def findConfig (fields : List DataFieldConfig) (address : Nat) : Option DataFieldConfig :=
  fields.find? (fun cfg => cfg.address.val == address)

/-- The block "Convert Raw" of `parsePacket`: the `int32_t raw` read from the
payload at index 2, by field size and address. -/
def convertRaw (cfg : DataFieldConfig) (address : Nat) (data : List Byte) : Int :=
  if cfg.size.val = 1 then
    if address = 222 then toUInt8 (byteAt data 2)
    else toInt8 (byteAt data 2)
  else if cfg.size.val = 2 then
    let val16 := toInt16 (byteAt data 2 ||| (byteAt data 3 <<< 8))
    if address = 24 ∨ address = 26 ∨ address = 113 ∨ address = 220 then
      toUInt16 (byteAt data 2 ||| (byteAt data 3 <<< 8))
    else val16
  else if cfg.size.val = 4 then
    toInt32 (byteAt data 2 ||| (byteAt data 3 <<< 8) ||| (byteAt data 4 <<< 16)
      ||| (byteAt data 5 <<< 24))
  else 0

/-- The statement "Calibrate: (Raw - B) / K" of `parsePacket`, in floats. -/
def calibrate (cfg : DataFieldConfig) (raw : Int) : ℚ :=
  F32.div (F32.sub (F32.ofInt raw) cfg.b) cfg.k

/-- The body of `Protocol::parsePacket` over a field table. -/
def parsePacketIn (fields : List DataFieldConfig) (data : List Byte) : ParsedData :=
  let result : ParsedData := ⟨0, 0, false⟩
  if data.length < 3 then result
  else
    let low := byteAt data 0
    let highByte := byteAt data 1
    let address := (((highByte &&& 0x1F) <<< 8) ||| low) % 65536
    let result := { result with address := address }
    match findConfig fields address with
    | none => result
    | some cfg =>
      if data.length < 2 + cfg.size.val then result
      else
        let raw := convertRaw cfg address data
        { result with value := calibrate cfg raw, valid := true }

/-- The decoder `Protocol::parsePacket`, over `TARGET_FIELDS`. -/
def parsePacket (data : List Byte) : ParsedData :=
  parsePacketIn TARGET_FIELDS data

/-! ## BleClient.h -/

/-- Observable actions of the firmware, in program order: calls into the BLE
stack, `delay`, and the call of the registered data callback. -/
inductive Effect where
  | scanSetInterval (ms : Nat)
  | scanSetWindow (ms : Nat)
  | scanSetActiveScan (active : Bool)
  | scanStart (duration : Nat)
  | writeValue (cmd : List Byte) (response : Bool)
  | delay (ms : Nat)
  | onDataReceived (addr : Nat) (val : ℚ)
  | scanStop
  | createClient
  | connect
  | getService (uuid : String)
  | getCharacteristic (uuid : String)
  | subscribe (notifications : Bool)
  | updateStatus (status : String) (color : String)
  deriving DecidableEq

/-- The fields of `class BleClientManager`; a pointer or `std::function`
member is `true` when it is non-null. -/
structure BleClientManager where
  isConnected : Bool := false
  isScanning : Bool := false
  pClient : Bool := false
  pService : Bool := false
  pWriteChar : Bool := false
  pNotifyChar : Bool := false
  onDataReceived : Bool := false
  deriving DecidableEq

/-- The method `BleClientManager::startScan`: the state after the call and
the calls made on the scan object. -/
def startScan (m : BleClientManager) : BleClientManager × List Effect :=
  if m.isConnected then (m, [])
  else
    ({ m with isScanning := true },
      [Effect.scanSetInterval 45, Effect.scanSetWindow 15, Effect.scanSetActiveScan true,
        Effect.scanStart 0])

/-- The loop "Setup Channels" of `configureDataStream`, run over the entries
`fields`: one channel setup write and a 50 ms delay per entry, in order. -/
def setupChannels (fields : List DataFieldConfig) : List Effect :=
  fields.flatMap (fun f =>
    [Effect.writeValue (createChannelSetupCommand f.address f.size) false, Effect.delay 50])

/-- The method `BleClientManager::configureDataStream` (it changes no field
of the manager). -/
def configureDataStream (m : BleClientManager) : List Effect :=
  if !m.pWriteChar then []
  else
    [Effect.writeValue (createControlCommand (toByte CMD_STOP_UPLOAD)) false, Effect.delay 200,
      Effect.writeValue (createControlCommand (toByte CMD_CLEAR_DATA)) false, Effect.delay 200]
    ++ setupChannels (TARGET_FIELDS.take NUM_FIELDS)
    ++ [Effect.delay 100,
      Effect.writeValue (createControlCommand (toByte CMD_START_UPLOAD)) false]

/-- The static method `BleClientManager::notifyCallback`; `inst` is the
static pointer `instance` (`none` when null). -/
def notifyCallback (inst : Option BleClientManager) (pData : List Byte) : List Effect :=
  let data := parsePacket pData
  match inst with
  | none => []
  | some m =>
    if data.valid && m.onDataReceived then [Effect.onDataReceived data.address data.value]
    else []

/-- The transport delivering a sequence of notifications: one call of
`notifyCallback` per notification, in arrival order. -/
def deliverNotifications (inst : Option BleClientManager) (packets : List (List Byte)) :
    List Effect :=
  packets.flatMap (notifyCallback inst)

/-- What the BLE stack answers during one `connectToServer`: the result of
`pClient->connect(device)`, whether `getService` and the two
`getCharacteristic` calls return a non-null pointer, and `canNotify()`.
(`NimBLEDevice::createClient` is taken to return a client; the code
dereferences its result unchecked.) -/
structure ConnectOutcome where
  connectOk : Bool
  serviceFound : Bool
  writeCharFound : Bool
  notifyCharFound : Bool
  canNotify : Bool
  deriving DecidableEq

def SERVICE_UUID : String := "0000FFE0-0000-1000-8000-00805F9B34FB"
def NOTIFY_CHAR_UUID : String := "0000FFE2-0000-1000-8000-00805F9B34FB"
def WRITE_CHAR_UUID : String := "0000FFE1-0000-1000-8000-00805F9B34FB"

/-- The method `BleClientManager::connectToServer`: the state after the
call, the return value, and the calls made on the BLE stack. -/
def connectToServer (m : BleClientManager) (o : ConnectOutcome) :
    BleClientManager × Bool × List Effect :=
  let m := { m with pClient := true }
  let trace := [Effect.createClient, Effect.connect]
  if o.connectOk then
    let m := { m with isConnected := true }
    let m := { m with pService := o.serviceFound }
    let trace := trace ++ [Effect.getService SERVICE_UUID]
    if m.pService then
      let m := { m with pWriteChar := o.writeCharFound }
      let m := { m with pNotifyChar := o.notifyCharFound }
      let trace := trace ++
        [Effect.getCharacteristic WRITE_CHAR_UUID, Effect.getCharacteristic NOTIFY_CHAR_UUID]
      let trace :=
        if m.pNotifyChar then
          if o.canNotify then trace ++ [Effect.subscribe true] else trace
        else trace
      (m, true, trace)
    else (m, false, trace)
  else (m, false, trace)

/-! ## main.cpp -/

/-- The test `name.find(pattern) != std::string::npos`. -/
def nameContains (name pattern : String) : Bool :=
  decide (pattern.toList <:+: name.toList)

/-- The scan callback `AdvertisedDeviceCallbacks::onResult` for a device
advertising `name`, with the answers `o` of the stack to the connection
attempt: the state of `bleClient` after the call and the trace. -/
def onResult (bleClient : BleClientManager) (name : String) (o : ConnectOutcome) :
    BleClientManager × List Effect :=
  if name.length > 0 then
    let isMatch := false
    let isMatch := if nameContains name "speed" then true else isMatch
    let isMatch := if nameContains name "cjpower" then true else isMatch
    let isMatch := if nameContains name "cj-power" then true else isMatch
    if isMatch then
      let trace := [Effect.scanStop, Effect.updateStatus "Connecting..." "TFT_BLUE"]
      let r := connectToServer bleClient o
      let trace := trace ++ r.2.2
      if r.2.1 then
        (r.1, trace
          ++ [Effect.updateStatus "Connected!" "TFT_GREEN", Effect.delay 500,
              Effect.updateStatus "Configuring..." "TFT_ORANGE"]
          ++ configureDataStream r.1
          ++ [Effect.updateStatus "Active" "TFT_GREEN"])
      else
        (r.1, trace
          ++ [Effect.updateStatus "Failed" "TFT_RED", Effect.delay 1000,
              Effect.updateStatus "Scanning..." "TFT_MAGENTA", Effect.scanStart 0])
    else (bleClient, [])
  else (bleClient, [])

/-! ## Observations on traces -/

/-- The report of the status "Active" on the display, in any colour. -/
def isActiveStatus (e : Effect) : Bool :=
  match e with
  | Effect.updateStatus status _ => status == "Active"
  | _ => false

/-- A matching device: its advertised name is not empty and contains one of
the substrings "speed", "cjpower", "cj-power". -/
def isMatchingName (name : String) : Bool :=
  decide (name.length > 0) &&
    (nameContains name "speed" || nameContains name "cjpower" || nameContains name "cj-power")

/-- The writes of the full configuration handshake: stop, clear, one channel
setup per entry of `TARGET_FIELDS` in table order, start. -/
def handshakeWrites : List (List Byte) :=
  [createControlCommand (toByte CMD_STOP_UPLOAD), createControlCommand (toByte CMD_CLEAR_DATA)]
    ++ TARGET_FIELDS.map (fun f => createChannelSetupCommand f.address f.size)
    ++ [createControlCommand (toByte CMD_START_UPLOAD)]


/-- The byte sequences written to the write characteristic, in order. -/
def writesOf (trace : List Effect) : List (List Byte) :=
  trace.filterMap (fun e => match e with
    | Effect.writeValue cmd _ => some cmd
    | _ => none)

/-- The number of scan start operations in a trace. -/
def scanStartsOf (trace : List Effect) : Nat :=
  (trace.filter (fun e => match e with
    | Effect.scanStart _ => true
    | _ => false)).length

/-- The calls of the data callback in a trace, in order. -/
def consumerCallsOf (trace : List Effect) : List (Nat × ℚ) :=
  trace.filterMap (fun e => match e with
    | Effect.onDataReceived addr val => some (addr, val)
    | _ => none)

/-! ## Specification side: synthetic notifications -/

/-- The header address of a packet as the specification writes it,
`((bytes[1] & 0x1F) << 8) | bytes[0]`. -/
def headerAddress (data : List Byte) : Nat :=
  ((byteAt data 1 &&& 0x1F) <<< 8) ||| byteAt data 0

/-- A notification for the address `a` (below 8192, flag bits clear) with the
given payload: `[a & 0xFF, a >> 8, payload...]`. -/
def notificationOf (a : Nat) (payload : List Byte) : List Byte :=
  toByte (a &&& 0xFF) :: toByte (a >>> 8) :: payload

/-- The little-endian `w`-byte two's complement encoding of an integer. -/
def leBytes (w : Nat) (raw : Int) : List Byte :=
  (List.range w).map (fun i => toByte ((raw % 2 ^ (8 * w)).toNat >>> (8 * i)))

/-- The synthetic notification for a field and a raw value:
`[a & 0xFF, a >> 8, little-endian encoding of raw]`. -/
def syntheticPacket (cfg : DataFieldConfig) (raw : Int) : List Byte :=
  notificationOf cfg.address.val (leBytes cfg.size.val raw)

/-- The fields whose wire type is unsigned: the 1-byte field 222 and the
2-byte fields 24, 26, 113 and 220. -/
def isUnsignedField (cfg : DataFieldConfig) : Bool :=
  (cfg.size.val == 1 && cfg.address.val == 222) ||
  (cfg.size.val == 2 &&
    (cfg.address.val == 24 || cfg.address.val == 26 || cfg.address.val == 113
      || cfg.address.val == 220))

/-- The integers representable in the wire type of a field. -/
def wireRepresentable (cfg : DataFieldConfig) (raw : Int) : Prop :=
  if isUnsignedField cfg then 0 ≤ raw ∧ raw < 2 ^ (8 * cfg.size.val)
  else -(2 ^ (8 * cfg.size.val - 1)) ≤ raw ∧ raw < 2 ^ (8 * cfg.size.val - 1)

instance (cfg : DataFieldConfig) (raw : Int) : Decidable (wireRepresentable cfg raw) := by
  unfold wireRepresentable
  infer_instance

/-- A byte with its top three bits (mask `0xE0`) replaced by `flags`. -/
def setFlags (b : Byte) (flags : Fin 8) : Byte :=
  toByte ((b.val &&& 0x1F) ||| (flags.val <<< 5))

/-- A packet with the top three bits of its byte at index 1 replaced (a packet
of fewer than two bytes has no such byte and stays as it is). -/
def replaceFlags (data : List Byte) (flags : Fin 8) : List Byte :=
  match data with
  | lo :: hi :: rest => lo :: setFlags hi flags :: rest
  | short => short

/-- A field table with a signed 1-byte field at an address other than 222
(the motor temperature that the comment in `parsePacket` speaks of), to
exercise the default branch of the 1-byte conversion. -/
def signedByteFields : List DataFieldConfig :=
  [ ⟨223, 1, F32.lit 1, F32.lit 0, "MotorTemp", "C"⟩ ]

/-! ## Lemmas on machine integers -/

theorem byteAt_lt (data : List Byte) (i : Nat) : byteAt data i < 256 :=
  (data.getD i 0).isLt

theorem toByte_val (n : Nat) : (toByte n).val = n % 256 := rfl

theorem toByte_of_lt {n : Nat} (h : n < 256) : (toByte n).val = n := by
  rw [toByte_val, Nat.mod_eq_of_lt h]

theorem toByte_val_self (b : Byte) : toByte b.val = b :=
  Fin.ext (Nat.mod_eq_of_lt b.isLt)

/-- A low byte joined with a shifted high byte is their positional sum. -/
theorem lor_shiftLeft_eight {x : Nat} (hx : x < 256) (y : Nat) :
    x ||| (y <<< 8) = x + 256 * y := by
  have h := Nat.mul_add_lt_is_or (show x < 2 ^ 8 from hx) y
  rw [Nat.shiftLeft_eq, Nat.or_comm, Nat.mul_comm y, ← h]
  norm_num
  ring

theorem headerAddress_lt (data : List Byte) : headerAddress data < 8192 := by
  unfold headerAddress
  have h1 : byteAt data 1 &&& 0x1F ≤ 0x1F := Nat.and_le_right
  have h2 : byteAt data 0 < 256 := byteAt_lt data 0
  have h3 : (byteAt data 1 &&& 0x1F) <<< 8 < 2 ^ 13 := by
    rw [Nat.shiftLeft_eq]
    omega
  exact Nat.or_lt_two_pow h3 (by omega)

/-! ## Rounding lemmas -/

theorem roundHalfEven_intCast (z : ℤ) : roundHalfEven (z : ℚ) = z := by
  simp [roundHalfEven]

theorem abs_roundHalfEven_sub_le (s : ℚ) : |(roundHalfEven s : ℚ) - s| ≤ 1 / 2 := by
  have h1 : (⌊s⌋ : ℚ) ≤ s := Int.floor_le s
  have h2 : s < (⌊s⌋ : ℚ) + 1 := Int.lt_floor_add_one s
  unfold roundHalfEven
  simp only
  rw [abs_le]
  split_ifs with ha hb hc
  · constructor <;> linarith
  · push_cast; constructor <;> linarith
  · constructor <;> linarith
  · push_cast; constructor <;> linarith

theorem roundHalfEven_eq_of_near (s : ℚ) (m : ℤ) (h : |s - m| < 1 / 2) :
    roundHalfEven s = m := by
  rw [abs_lt] at h
  obtain ⟨h1, h2⟩ := h
  have hf : ⌊s⌋ = m ∨ ⌊s⌋ = m - 1 := by
    rcases le_or_lt (m : ℚ) s with hms | hms
    · left
      rw [Int.floor_eq_iff]
      constructor <;> linarith
    · right
      rw [Int.floor_eq_iff]
      push_cast
      constructor <;> linarith
  unfold roundHalfEven
  simp only
  rcases hf with hf | hf
  · rw [hf, if_pos (by linarith)]
  · rw [hf]
    push_cast
    rw [if_neg (by linarith), if_pos (by linarith)]
    ring

theorem roundHalfEven_nonneg {s : ℚ} (hs : 0 ≤ s) : 0 ≤ roundHalfEven s := by
  have h0 : 0 ≤ ⌊s⌋ := Int.floor_nonneg.mpr hs
  unfold roundHalfEven
  simp only
  split_ifs <;> omega

theorem f32Round_zero : f32Round 0 = 0 := by simp [f32Round]

theorem f32Round_nonneg {q : ℚ} (hq : 0 ≤ q) : 0 ≤ f32Round q := by
  unfold f32Round
  split_ifs with h0
  · exact le_rfl
  · simp only
    have hu : (0 : ℚ) < 2 ^ (max (Int.log 2 |q|) (-126) - 23) := by positivity
    exact mul_nonneg (by exact_mod_cast roundHalfEven_nonneg (div_nonneg hq hu.le)) hu.le

/-- The binary exponent of a positive rational is determined by its binade. -/
theorem log_two_eq {r : ℚ} {e : ℤ} (h1 : (2 : ℚ) ^ e ≤ r) (h2 : r < (2 : ℚ) ^ (e + 1)) :
    Int.log 2 r = e := by
  have hr : 0 < r := lt_of_lt_of_le (by positivity) h1
  have ha : e ≤ Int.log 2 r := (Int.zpow_le_iff_le_log (by norm_num) hr).1 (by exact_mod_cast h1)
  have hb : Int.log 2 r < e + 1 := (Int.lt_zpow_iff_log_lt (by norm_num) hr).1 (by exact_mod_cast h2)
  omega

/-- A rational in the binade of exponent `e` (at least `-126`) that lies
strictly within half a unit in the last place of `m * 2 ^ (e - 23)` rounds to it. -/
theorem f32Round_eq_of_near {q : ℚ} (e m : ℤ) (he : -126 ≤ e)
    (h1 : (2 : ℚ) ^ e ≤ |q|) (h2 : |q| < (2 : ℚ) ^ (e + 1))
    (hm : |q / (2 : ℚ) ^ (e - 23) - m| < 1 / 2) :
    f32Round q = (m : ℚ) * (2 : ℚ) ^ (e - 23) := by
  have hq : q ≠ 0 := by
    intro h
    rw [h, abs_zero] at h1
    exact absurd h1 (not_le.mpr (by positivity))
  unfold f32Round
  rw [if_neg hq]
  simp only
  rw [log_two_eq h1 h2, max_eq_left he, roundHalfEven_eq_of_near _ m hm]


/-- A number with at most 24 significant bits and exponent at least `-149`
is a binary32 value: rounding leaves it unchanged. -/
theorem f32Round_exact (m s : ℤ) (hm : |m| < 2 ^ 24) (hs : -149 ≤ s) :
    f32Round ((m : ℚ) * (2 : ℚ) ^ s) = (m : ℚ) * (2 : ℚ) ^ s := by
  by_cases hq : (m : ℚ) * (2 : ℚ) ^ s = 0
  · rw [hq, f32Round_zero]
  · have h2s : (0 : ℚ) < (2 : ℚ) ^ s := by positivity
    have hm0 : (m : ℚ) ≠ 0 := left_ne_zero_of_mul hq
    have habs : |(m : ℚ) * (2 : ℚ) ^ s| = |(m : ℚ)| * (2 : ℚ) ^ s := by
      rw [abs_mul, abs_of_pos h2s]
    have hpos : 0 < |(m : ℚ) * (2 : ℚ) ^ s| := abs_pos.mpr hq
    have hmq : |(m : ℚ)| < (2 : ℚ) ^ (24 : ℤ) := by
      have : ((|m| : ℤ) : ℚ) < ((2 ^ 24 : ℤ) : ℚ) := by exact_mod_cast hm
      norm_num at this ⊢
      exact this
    have hlt : |(m : ℚ) * (2 : ℚ) ^ s| < ((2 : ℕ) : ℚ) ^ (24 + s) := by
      rw [habs, zpow_add₀ (by norm_num)]
      push_cast
      exact mul_lt_mul_of_pos_right hmq h2s
    have hlog : Int.log 2 |(m : ℚ) * (2 : ℚ) ^ s| < 24 + s :=
      (Int.lt_zpow_iff_log_lt (by norm_num) hpos).1 hlt
    unfold f32Round
    rw [if_neg hq]
    simp only
    generalize hE : max (Int.log 2 |(m : ℚ) * (2 : ℚ) ^ s|) (-126) = e
    have hes : e - 23 ≤ s := by
      have := max_le (show Int.log 2 |(m : ℚ) * (2 : ℚ) ^ s| ≤ s + 23 by omega)
        (show (-126 : ℤ) ≤ s + 23 by omega)
      rw [hE] at this
      omega
    obtain ⟨n, hn⟩ := Int.eq_ofNat_of_zero_le (show 0 ≤ s - (e - 23) by omega)
    have hdiv : (m : ℚ) * (2 : ℚ) ^ s / (2 : ℚ) ^ (e - 23) = ((m * 2 ^ n : ℤ) : ℚ) := by
      have hs' : s = (n : ℤ) + (e - 23) := by omega
      rw [hs', zpow_add₀ (by norm_num), zpow_natCast]
      push_cast
      field_simp
      ring
    rw [hdiv, roundHalfEven_intCast, ← hdiv]
    field_simp

theorem f32Round_intCast (n : ℤ) (hn : |n| < 2 ^ 24) : f32Round (n : ℚ) = n := by
  have := f32Round_exact n 0 hn (by norm_num)
  simpa using this

/-- In the normal range the rounding error is at most half a unit in the last
place, that is a relative error of at most `2 ^ (-24)`. -/
theorem abs_f32Round_sub_le {q : ℚ} (hq : (2 : ℚ) ^ (-126 : ℤ) ≤ |q|) :
    |f32Round q - q| ≤ |q| / 2 ^ 24 := by
  have hpos : 0 < |q| := lt_of_lt_of_le (by positivity) hq
  have hq0 : q ≠ 0 := abs_pos.mp hpos
  have hlog : -126 ≤ Int.log 2 |q| :=
    (Int.zpow_le_iff_le_log (by norm_num) hpos).1 (by exact_mod_cast hq)
  have hle : ((2 : ℕ) : ℚ) ^ Int.log 2 |q| ≤ |q| := Int.zpow_log_le_self (by norm_num) hpos
  unfold f32Round
  rw [if_neg hq0]
  simp only
  rw [max_eq_left hlog]
  generalize Int.log 2 |q| = e at hle
  have hu : (0 : ℚ) < (2 : ℚ) ^ (e - 23) := by positivity
  have hr := abs_roundHalfEven_sub_le (q / (2 : ℚ) ^ (e - 23))
  have heq : (roundHalfEven (q / (2 : ℚ) ^ (e - 23)) : ℚ) * (2 : ℚ) ^ (e - 23) - q =
      ((roundHalfEven (q / (2 : ℚ) ^ (e - 23)) : ℚ) - q / (2 : ℚ) ^ (e - 23)) * (2 : ℚ) ^ (e - 23) := by
    field_simp
  rw [heq, abs_mul, abs_of_pos hu]
  have h3 : (2 : ℚ) ^ (e - 23) = (2 : ℚ) ^ e / 2 ^ 23 := by
    rw [zpow_sub₀ (by norm_num)]
    norm_num
  calc |(roundHalfEven (q / (2 : ℚ) ^ (e - 23)) : ℚ) - q / (2 : ℚ) ^ (e - 23)| * (2 : ℚ) ^ (e - 23)
      ≤ 1 / 2 * (2 : ℚ) ^ (e - 23) := mul_le_mul_of_nonneg_right hr hu.le
    _ = (2 : ℚ) ^ e / 2 ^ 24 := by rw [h3]; ring
    _ ≤ |q| / 2 ^ 24 := by
        apply div_le_div_of_nonneg_right _ (by positivity)
        exact_mod_cast hle


/-! ## The float constants of the table -/

theorem F32.lit_intCast (n : ℤ) (hn : |n| < 2 ^ 24) : F32.lit (n : ℚ) = n :=
  f32Round_intCast n hn

theorem F32.lit_zero : F32.lit 0 = 0 := f32Round_zero

theorem F32.lit_one : F32.lit 1 = 1 := by
  simpa using F32.lit_intCast 1 (by norm_num)

theorem F32.lit_ten : F32.lit 10 = 10 := by
  simpa using F32.lit_intCast 10 (by norm_num)

theorem F32.lit_forty : F32.lit 40 = 40 := by
  simpa using F32.lit_intCast 40 (by norm_num)

theorem F32.lit_thousand : F32.lit 1000 = 1000 := by
  simpa using F32.lit_intCast 1000 (by norm_num)

/-- The float nearest to 744.3 is `12194611 / 2 ^ 14`. -/
theorem F32.lit_throttle : F32.lit (7443 / 10) = 12194611 / 16384 := by
  unfold F32.lit
  rw [f32Round_eq_of_near 9 12194611 (by norm_num) (by norm_num [abs_of_pos])
    (by norm_num [abs_of_pos]) (by norm_num [abs_lt])]
  norm_num

/-! ## Lemmas on the field table -/

theorem findConfig_some {fields : List DataFieldConfig} {a : Nat} {cfg : DataFieldConfig}
    (h : findConfig fields a = some cfg) : cfg ∈ fields ∧ cfg.address.val = a := by
  unfold findConfig at h
  refine ⟨List.mem_of_find?_eq_some h, ?_⟩
  have := List.find?_some h
  simpa using this

theorem findConfig_none {fields : List DataFieldConfig} {a : Nat}
    (h : findConfig fields a = none) : ∀ cfg ∈ fields, cfg.address.val ≠ a := by
  unfold findConfig at h
  rw [List.find?_eq_none] at h
  intro cfg hc
  simpa using h cfg hc

/-- No two entries of `TARGET_FIELDS` share an address: the lookup of the
address of an entry finds that entry. -/
theorem findConfig_target {cfg : DataFieldConfig} (h : cfg ∈ TARGET_FIELDS) :
    findConfig TARGET_FIELDS cfg.address.val = some cfg := by
  simp only [TARGET_FIELDS, List.mem_cons, List.mem_singleton, List.not_mem_nil, or_false] at h
  rcases h with h | h | h | h | h | h | h | h <;> subst h <;> rfl

/-! ## The decoder, step by step -/

theorem parsePacketIn_short {fields : List DataFieldConfig} {data : List Byte}
    (h : data.length < 3) : parsePacketIn fields data = ⟨0, 0, false⟩ := by
  unfold parsePacketIn
  simp [h]

/-- The decoder on a packet with a header, in terms of the header address. -/
theorem parsePacketIn_long {fields : List DataFieldConfig} {data : List Byte}
    (h : 3 ≤ data.length) :
    parsePacketIn fields data =
      match findConfig fields (headerAddress data) with
      | none => ⟨headerAddress data, 0, false⟩
      | some cfg =>
        if data.length < 2 + cfg.size.val then ⟨headerAddress data, 0, false⟩
        else ⟨headerAddress data, calibrate cfg (convertRaw cfg (headerAddress data) data), true⟩ := by
  have hmod : headerAddress data % 65536 = headerAddress data :=
    Nat.mod_eq_of_lt (lt_trans (headerAddress_lt data) (by norm_num))
  unfold parsePacketIn
  rw [if_neg (by omega)]
  unfold headerAddress at hmod ⊢
  simp only [hmod]

theorem parsePacketIn_unknown {fields : List DataFieldConfig} {data : List Byte}
    (h : 3 ≤ data.length) (hf : findConfig fields (headerAddress data) = none) :
    parsePacketIn fields data = ⟨headerAddress data, 0, false⟩ := by
  rw [parsePacketIn_long h, hf]

theorem parsePacketIn_truncated {fields : List DataFieldConfig} {data : List Byte}
    {cfg : DataFieldConfig} (h : 3 ≤ data.length)
    (hf : findConfig fields (headerAddress data) = some cfg)
    (hs : data.length < 2 + cfg.size.val) :
    parsePacketIn fields data = ⟨headerAddress data, 0, false⟩ := by
  rw [parsePacketIn_long h, hf]
  simp only [hs, if_true]

theorem parsePacketIn_decoded {fields : List DataFieldConfig} {data : List Byte}
    {cfg : DataFieldConfig} (h : 3 ≤ data.length)
    (hf : findConfig fields (headerAddress data) = some cfg)
    (hs : 2 + cfg.size.val ≤ data.length) :
    parsePacketIn fields data =
      ⟨headerAddress data, calibrate cfg (convertRaw cfg (headerAddress data) data), true⟩ := by
  rw [parsePacketIn_long h, hf]
  simp only [if_neg (not_lt.mpr hs)]

/-! ## Claims on the codec -/

/-- C1: `parsePacket` fails soft exactly in the three malformed cases.  The
result is valid if and only if the packet has at least 3 bytes, its header
address is the address of some entry of `TARGET_FIELDS`, and it has at least
2 bytes plus that entry's size; in every other case the result is invalid with
value 0, in particular for every packet of fewer than 3 bytes. -/
theorem parsePacket_valid_iff (data : List Byte) :
    ((parsePacket data).valid = true ↔
      3 ≤ data.length ∧ ∃ cfg ∈ TARGET_FIELDS,
        cfg.address.val = headerAddress data ∧ 2 + cfg.size.val ≤ data.length) ∧
    ((parsePacket data).valid = true ∨
      ((parsePacket data).valid = false ∧ (parsePacket data).value = 0)) ∧
    (data.length < 3 → (parsePacket data).valid = false ∧ (parsePacket data).value = 0) := by
  unfold parsePacket
  rcases Nat.lt_or_ge data.length 3 with hlen | hlen
  · rw [parsePacketIn_short hlen]
    refine ⟨⟨fun h => by simp at h, fun h => by omega⟩, Or.inr ⟨rfl, rfl⟩, fun _ => ⟨rfl, rfl⟩⟩
  · cases hf : findConfig TARGET_FIELDS (headerAddress data) with
    | none =>
      rw [parsePacketIn_unknown hlen hf]
      refine ⟨⟨fun h => by simp at h, ?_⟩, Or.inr ⟨rfl, rfl⟩, fun h => by omega⟩
      rintro ⟨_, cfg, hmem, haddr, _⟩
      exact absurd haddr (findConfig_none hf cfg hmem)
    | some cfg =>
      obtain ⟨hmem, haddr⟩ := findConfig_some hf
      rcases Nat.lt_or_ge data.length (2 + cfg.size.val) with hs | hs
      · rw [parsePacketIn_truncated hlen hf hs]
        refine ⟨⟨fun h => by simp at h, ?_⟩, Or.inr ⟨rfl, rfl⟩, fun h => by omega⟩
        rintro ⟨_, cfg2, hmem2, haddr2, hs2⟩
        have h2 := findConfig_target hmem2
        rw [haddr2, hf] at h2
        cases h2
        omega
      · rw [parsePacketIn_decoded hlen hf hs]
        exact ⟨⟨fun _ => ⟨hlen, cfg, hmem, haddr, hs⟩, fun _ => rfl⟩, Or.inl rfl, fun h => by omega⟩

/-- C1, witness: a 2-byte packet is invalid with value 0 whatever its bytes
(here both bytes name the known address 24). -/
theorem parsePacket_valid_iff_witness :
    ([0x18, 0x00] : List Byte).length < 3 ∧
      (parsePacket [0x18, 0x00]).valid = false ∧ (parsePacket [0x18, 0x00]).value = 0 :=
  ⟨by decide, (parsePacket_valid_iff [0x18, 0x00]).2.2 (by decide)⟩

/-! ## Round trip of a synthetic notification -/

theorem headerAddress_cons (lo hi : Byte) (rest : List Byte) :
    headerAddress (lo :: hi :: rest) = ((hi.val &&& 0x1F) <<< 8) ||| lo.val := rfl

/-- The two header bytes of a 13-bit address give the address back. -/
theorem headerAddress_encode {a : Nat} (ha : a < 8192) (rest : List Byte) :
    headerAddress (notificationOf a rest) = a := by
  unfold notificationOf
  have hlo : a &&& 0xFF = a % 256 := Nat.and_pow_two_sub_one_eq_mod a 8
  have hhi : a >>> 8 = a / 256 := Nat.shiftRight_eq_div_pow a 8
  have h5 : (a / 256) &&& 0x1F = a / 256 % 32 := Nat.and_pow_two_sub_one_eq_mod (a / 256) 5
  rw [headerAddress_cons, hlo, hhi, toByte_val, toByte_val, Nat.mod_mod,
    Nat.mod_eq_of_lt (show a / 256 < 256 by omega), h5, Nat.or_comm,
    lor_shiftLeft_eight (Nat.mod_lt a (by norm_num))]
  omega

/-- Two little-endian bytes of a 16-bit pattern join to the pattern. -/
theorem le16_join {r : Nat} (hr : r < 65536) :
    (toByte r).val ||| ((toByte (r >>> 8)).val <<< 8) = r := by
  rw [toByte_val, toByte_val, Nat.shiftRight_eq_div_pow,
    lor_shiftLeft_eight (Nat.mod_lt r (by norm_num))]
  omega

theorem leBytes_one (raw : Int) : leBytes 1 raw = [toByte (raw % 256).toNat] := by
  simp [leBytes, List.range, List.range.loop]

theorem leBytes_two (raw : Int) :
    leBytes 2 raw = [toByte (raw % 65536).toNat, toByte ((raw % 65536).toNat >>> 8)] := by
  simp [leBytes, List.range, List.range.loop]

/-- The conversions of `parsePacket` undo the encoding of a representable
raw value, for the 1-byte and 2-byte fields. -/
theorem convertRaw_syntheticPacket (cfg : DataFieldConfig) (raw : Int)
    (hsize : cfg.size.val = 1 ∨ cfg.size.val = 2) (hr : wireRepresentable cfg raw) :
    convertRaw cfg cfg.address.val (syntheticPacket cfg raw) = raw := by
  unfold wireRepresentable at hr
  unfold convertRaw syntheticPacket notificationOf
  rcases hsize with h1 | h2
  · rw [if_pos h1]
    simp only [h1, leBytes_one, byteAt, List.cons_append, List.nil_append, List.getD_cons_succ,
      List.getD_cons_zero, toByte_val]
    by_cases ha : cfg.address.val = 222
    · have hu : isUnsignedField cfg = true := by simp [isUnsignedField, h1, ha]
      rw [hu, if_pos rfl, h1] at hr
      norm_num at hr
      rw [if_pos ha]
      unfold toUInt8
      omega
    · have hu : isUnsignedField cfg = false := by simp [isUnsignedField, h1, ha]
      rw [hu, if_neg (by simp), h1] at hr
      norm_num at hr
      rw [if_neg ha]
      unfold toInt8
      split_ifs <;> omega
  · have hne : cfg.size.val ≠ 1 := by omega
    have hlt : (raw % 65536).toNat < 65536 := by omega
    rw [if_neg hne, if_pos h2]
    simp only [h2, leBytes_two, byteAt, List.cons_append, List.nil_append,
      List.getD_cons_succ, List.getD_cons_zero, le16_join hlt]
    by_cases ha : cfg.address.val = 24 ∨ cfg.address.val = 26 ∨ cfg.address.val = 113
        ∨ cfg.address.val = 220
    · have hu : isUnsignedField cfg = true := by
        rcases ha with h | h | h | h <;> simp [isUnsignedField, h2, h]
      rw [hu, if_pos rfl, h2] at hr
      norm_num at hr
      rw [if_pos ha]
      unfold toUInt16
      omega
    · have hu : isUnsignedField cfg = false := by
        simp only [not_or] at ha
        simp [isUnsignedField, h2, ha]
      rw [hu, if_neg (by simp), h2] at hr
      norm_num at hr
      rw [if_neg ha]
      unfold toInt16
      split_ifs <;> omega

theorem syntheticPacket_length (cfg : DataFieldConfig) (raw : Int) :
    (syntheticPacket cfg raw).length = 2 + cfg.size.val := by
  simp [syntheticPacket, notificationOf, leBytes]
  omega

/-- The round trip on the integer side: a synthetic notification of a table
entry decodes to that entry's address and the calibration of the raw value. -/
theorem parsePacket_syntheticPacket {cfg : DataFieldConfig} (raw : Int)
    (hc : cfg ∈ TARGET_FIELDS) (hr : wireRepresentable cfg raw) :
    parsePacket (syntheticPacket cfg raw) = ⟨cfg.address.val, calibrate cfg raw, true⟩ := by
  have hfacts : cfg.address.val < 8192 ∧ (cfg.size.val = 1 ∨ cfg.size.val = 2) := by
    simp only [TARGET_FIELDS, List.mem_cons, List.mem_singleton, List.not_mem_nil, or_false] at hc
    rcases hc with h | h | h | h | h | h | h | h <;> subst h <;> decide
  obtain ⟨ha, hsize⟩ := hfacts
  have hlen := syntheticPacket_length cfg raw
  have haddr : headerAddress (syntheticPacket cfg raw) = cfg.address.val :=
    headerAddress_encode ha _
  have hfind := findConfig_target hc
  unfold parsePacket
  rw [parsePacketIn_decoded (by omega) (by rw [haddr]; exact hfind) (by omega), haddr,
    convertRaw_syntheticPacket cfg raw hsize hr]

/-- The offsets of the table are the integers 0 and 40, its scales lie
between 1 and 1000. -/
theorem target_constants {cfg : DataFieldConfig} (hc : cfg ∈ TARGET_FIELDS) :
    (cfg.b = 0 ∨ cfg.b = 40) ∧ 1 ≤ cfg.k ∧ cfg.k ≤ 1000 := by
  simp only [TARGET_FIELDS, List.mem_cons, List.mem_singleton, List.not_mem_nil, or_false] at hc
  rcases hc with h | h | h | h | h | h | h | h <;> subst h <;>
    simp only [F32.lit_zero, F32.lit_one, F32.lit_ten, F32.lit_forty, F32.lit_thousand,
      F32.lit_throttle] <;> norm_num

theorem target_sizes {cfg : DataFieldConfig} (hc : cfg ∈ TARGET_FIELDS) :
    cfg.address.val < 8192 ∧ (cfg.size.val = 1 ∨ cfg.size.val = 2) := by
  simp only [TARGET_FIELDS, List.mem_cons, List.mem_singleton, List.not_mem_nil, or_false] at hc
  rcases hc with h | h | h | h | h | h | h | h <;> subst h <;> decide

theorem wireRepresentable_bound {cfg : DataFieldConfig} {raw : Int}
    (hsize : cfg.size.val = 1 ∨ cfg.size.val = 2) (hr : wireRepresentable cfg raw) :
    -32768 ≤ raw ∧ raw < 65536 := by
  unfold wireRepresentable at hr
  rcases hsize with h | h <;> rw [h] at hr <;> split_ifs at hr <;> norm_num at hr <;> omega

/-- For a raw value of at most 16 bits and an offset 0 or 40 the conversion
to float and the subtraction are exact: only the division rounds. -/
theorem calibrate_eq {cfg : DataFieldConfig} {raw : Int} (hb : cfg.b = 0 ∨ cfg.b = 40)
    (hraw : -32768 ≤ raw ∧ raw < 65536) :
    calibrate cfg raw = f32Round (((raw : ℚ) - cfg.b) / cfg.k) := by
  have h1 : |raw| < 2 ^ 24 := by rw [abs_lt]; omega
  have h2 : |raw - 40| < 2 ^ 24 := by rw [abs_lt]; omega
  unfold calibrate F32.div F32.sub F32.ofInt
  rw [f32Round_intCast raw h1]
  rcases hb with hb | hb <;> rw [hb]
  · rw [sub_zero, f32Round_intCast raw h1]
  · have h3 := f32Round_intCast (raw - 40) h2
    push_cast at h3
    rw [h3]

/-- The quotient of an integer by a scale between 1 and 1000 is zero or in
the normal range of binary32, so its rounding is accurate to `2 ^ (-24)`. -/
theorem abs_f32Round_quotient_le (x : ℤ) {k : ℚ} (hk1 : 1 ≤ k) (hk2 : k ≤ 1000) :
    |f32Round ((x : ℚ) / k) - (x : ℚ) / k| ≤ |(x : ℚ) / k| / 2 ^ 24 := by
  have hk : 0 < k := lt_of_lt_of_le one_pos hk1
  by_cases hx : x = 0
  · subst hx
    simp [f32Round_zero]
  · apply abs_f32Round_sub_le
    have hx1 : (1 : ℚ) ≤ |(x : ℚ)| := by
      have : (1 : ℤ) ≤ |x| := Int.one_le_abs hx
      exact_mod_cast this
    rw [abs_div, abs_of_pos hk]
    calc (2 : ℚ) ^ (-126 : ℤ) ≤ 1 / 1000 := by
          rw [zpow_neg, ← one_div]
          apply one_div_le_one_div_of_le (by norm_num)
          norm_num
      _ ≤ 1 / k := one_div_le_one_div_of_le hk hk2
      _ ≤ |(x : ℚ)| / k := div_le_div_of_nonneg_right hx1 hk.le

/-- The packet `[0x18, 0x00, 0x25, 0x03]` (address 24, raw 805) decodes to
exactly 80.5. -/
theorem parsePacket_speed_example :
    parsePacket [0x18, 0x00, 0x25, 0x03] = ⟨24, 161 / 2, true⟩ := by
  have hmem : (⟨24, 2, F32.lit 10, F32.lit 0, "Speed", "km/h"⟩ : DataFieldConfig)
      ∈ TARGET_FIELDS := by simp [TARGET_FIELDS]
  have h := parsePacket_syntheticPacket 805 hmem (by decide)
  have hv : calibrate ⟨24, 2, F32.lit 10, F32.lit 0, "Speed", "km/h"⟩ 805
      = f32Round ((((805 : ℤ) : ℚ) - F32.lit 0) / F32.lit 10) :=
    calibrate_eq (Or.inl F32.lit_zero) (by omega)
  have hpkt : syntheticPacket ⟨24, 2, F32.lit 10, F32.lit 0, "Speed", "km/h"⟩ 805
      = [0x18, 0x00, 0x25, 0x03] := by decide
  have he : (((805 : ℤ) : ℚ) - F32.lit 0) / F32.lit 10
      = ((161 : ℤ) : ℚ) * (2 : ℚ) ^ (-1 : ℤ) := by
    rw [F32.lit_zero, F32.lit_ten]
    norm_num
  rw [hpkt, hv, he, f32Round_exact 161 (-1) (by norm_num) (by norm_num)] at h
  rw [h]
  norm_num
  rfl

/-- C2: calibration round trip.  For every entry of `TARGET_FIELDS` and every
raw integer representable in the wire type of the field, the synthetic
notification `[a & 0xFF, a >> 8, little-endian raw]` decodes to valid=true,
the address of the entry, and the float `(raw - b) / k`: the binary32 value
nearest to the exact quotient, within a relative error of `2 ^ (-24)`;
address 24 with raw 805 gives exactly 80.5. -/
theorem calibration_round_trip (cfg : DataFieldConfig) (raw : Int)
    (hc : cfg ∈ TARGET_FIELDS) (hr : wireRepresentable cfg raw) :
    parsePacket (syntheticPacket cfg raw) =
        ⟨cfg.address.val, F32.div (F32.sub (F32.ofInt raw) cfg.b) cfg.k, true⟩ ∧
      (parsePacket (syntheticPacket cfg raw)).value = f32Round (((raw : ℚ) - cfg.b) / cfg.k) ∧
      |(parsePacket (syntheticPacket cfg raw)).value - ((raw : ℚ) - cfg.b) / cfg.k|
        ≤ |((raw : ℚ) - cfg.b) / cfg.k| / 2 ^ 24 ∧
      parsePacket [0x18, 0x00, 0x25, 0x03] = ⟨24, 161 / 2, true⟩ := by
  obtain ⟨hb, hk1, hk2⟩ := target_constants hc
  have hbound := wireRepresentable_bound (target_sizes hc).2 hr
  have hparse := parsePacket_syntheticPacket raw hc hr
  have hval := calibrate_eq hb hbound
  refine ⟨hparse, by rw [hparse, hval], ?_, parsePacket_speed_example⟩
  rw [hparse]
  show |calibrate cfg raw - _| ≤ _
  rw [hval]
  rcases hb with hb | hb <;> rw [hb]
  · have := abs_f32Round_quotient_le raw hk1 hk2
    simpa using this
  · have := abs_f32Round_quotient_le (raw - 40) hk1 hk2
    push_cast at this
    exact this

/-- C2, witness: the entry of address 119 (a signed 2-byte field) with the
raw value -2, whose synthetic notification is `[0x77, 0x00, 0xFE, 0xFF]`. -/
theorem calibration_round_trip_witness :
    (⟨119, 2, F32.lit 10, F32.lit 0, "Current", "A"⟩ : DataFieldConfig) ∈ TARGET_FIELDS ∧
      wireRepresentable ⟨119, 2, F32.lit 10, F32.lit 0, "Current", "A"⟩ (-2) ∧
      syntheticPacket ⟨119, 2, F32.lit 10, F32.lit 0, "Current", "A"⟩ (-2)
        = [0x77, 0x00, 0xFE, 0xFF] ∧
      (parsePacket (syntheticPacket ⟨119, 2, F32.lit 10, F32.lit 0, "Current", "A"⟩ (-2))).value
        = f32Round ((((-2 : ℤ) : ℚ) - F32.lit 0) / F32.lit 10) :=
  ⟨by simp [TARGET_FIELDS], by decide, by decide,
    (calibration_round_trip ⟨119, 2, F32.lit 10, F32.lit 0, "Current", "A"⟩ (-2)
      (by simp [TARGET_FIELDS]) (by decide)).2.1⟩

/-! ## Signedness of the raw value -/

/-- A notification for a table entry with a payload of at least the field
size decodes to the calibration of the converted raw value. -/
theorem parsePacket_notificationOf {cfg : DataFieldConfig} (hc : cfg ∈ TARGET_FIELDS)
    (payload : List Byte) (hlen : cfg.size.val ≤ payload.length) :
    parsePacket (notificationOf cfg.address.val payload) =
      ⟨cfg.address.val,
        calibrate cfg (convertRaw cfg cfg.address.val (notificationOf cfg.address.val payload)),
        true⟩ := by
  obtain ⟨ha, hsize⟩ := target_sizes hc
  have haddr : headerAddress (notificationOf cfg.address.val payload) = cfg.address.val :=
    headerAddress_encode ha _
  have hl : (notificationOf cfg.address.val payload).length = payload.length + 2 := rfl
  have hfind := findConfig_target hc
  unfold parsePacket
  rw [parsePacketIn_decoded (by omega) (by rw [haddr]; exact hfind) (by omega), haddr]

/-- The 2-byte conversion: unsigned for 24, 26, 113, 220, signed otherwise. -/
theorem convertRaw_two {cfg : DataFieldConfig} (hs : cfg.size.val = 2) (a : Nat)
    (lo hi b2 b3 : Byte) (rest : List Byte) :
    convertRaw cfg a (lo :: hi :: b2 :: b3 :: rest) =
      if a = 24 ∨ a = 26 ∨ a = 113 ∨ a = 220 then (b2.val : Int) + 256 * b3.val
      else if b3.val < 128 then (b2.val : Int) + 256 * b3.val
      else (b2.val : Int) + 256 * b3.val - 65536 := by
  have h2 := b2.isLt
  have h3 := b3.isLt
  have hne : cfg.size.val ≠ 1 := by omega
  unfold convertRaw
  rw [if_neg hne, if_pos hs]
  simp only [byteAt, List.getD_cons_succ, List.getD_cons_zero, lor_shiftLeft_eight h2]
  unfold toUInt16 toInt16
  split_ifs <;> omega

/-- The 1-byte conversion: unsigned for 222, signed otherwise. -/
theorem convertRaw_one {cfg : DataFieldConfig} (hs : cfg.size.val = 1) (a : Nat)
    (lo hi x : Byte) (rest : List Byte) :
    convertRaw cfg a (lo :: hi :: x :: rest) =
      if a = 222 then (x.val : Int)
      else if x.val < 128 then (x.val : Int) else (x.val : Int) - 256 := by
  have hx := x.isLt
  unfold convertRaw
  rw [if_pos hs]
  simp only [byteAt, List.getD_cons_succ, List.getD_cons_zero]
  unfold toUInt8 toInt8
  split_ifs <;> omega

theorem calibrate_nonneg {cfg : DataFieldConfig} {raw : Int} (hb : cfg.b = 0)
    (hk : 0 ≤ cfg.k) (hraw : 0 ≤ raw) : 0 ≤ calibrate cfg raw := by
  unfold calibrate F32.div F32.sub F32.ofInt
  apply f32Round_nonneg
  apply div_nonneg _ hk
  apply f32Round_nonneg
  rw [hb, sub_zero]
  apply f32Round_nonneg
  exact_mod_cast hraw

/-- The four unsigned 2-byte entries have offset 0. -/
theorem target_unsigned_offset {cfg : DataFieldConfig} (hc : cfg ∈ TARGET_FIELDS)
    (ha : cfg.address.val ∈ [24, 26, 113, 220]) : cfg.b = 0 := by
  simp only [TARGET_FIELDS, List.mem_cons, List.mem_singleton, List.not_mem_nil, or_false] at hc
  rcases hc with h | h | h | h | h | h | h | h <;> subst h <;>
    first | exact F32.lit_zero | (exact absurd ha (by decide))

/-- The packet `[0x71, 0x00, 0xE8, 0x03]` (address 113, raw 1000 read as
unsigned) decodes to 100. -/
theorem parsePacket_volt_example :
    parsePacket [0x71, 0x00, 0xE8, 0x03] = ⟨113, 100, true⟩ := by
  have hmem : (⟨113, 2, F32.lit 10, F32.lit 0, "Volt", "V"⟩ : DataFieldConfig)
      ∈ TARGET_FIELDS := by simp [TARGET_FIELDS]
  have h := parsePacket_notificationOf hmem [0xE8, 0x03] (by decide)
  have hpkt : notificationOf (113 : Fin 65536).val [0xE8, 0x03] = [0x71, 0x00, 0xE8, 0x03] := by
    decide
  have hraw : convertRaw ⟨113, 2, F32.lit 10, F32.lit 0, "Volt", "V"⟩ (113 : Fin 65536).val
      [0x71, 0x00, 0xE8, 0x03] = 1000 := by
    rw [convertRaw_two rfl]
    decide
  have hv : calibrate ⟨113, 2, F32.lit 10, F32.lit 0, "Volt", "V"⟩ 1000
      = f32Round ((((1000 : ℤ) : ℚ) - F32.lit 0) / F32.lit 10) :=
    calibrate_eq (Or.inl F32.lit_zero) (by omega)
  have he : (((1000 : ℤ) : ℚ) - F32.lit 0) / F32.lit 10 = ((100 : ℤ) : ℚ) := by
    rw [F32.lit_zero, F32.lit_ten]
    norm_num
  rw [hpkt, hraw, hv, he, f32Round_intCast 100 (by norm_num)] at h
  rw [h]
  norm_num
  rfl

/-- C3: unsigned 16-bit exception.  For a 2-byte entry of `TARGET_FIELDS` and
payload bytes `b2`, `b3`: at the addresses 24, 26, 113 and 220 the raw value is
`b2 + 256 * b3` (0..65535) and the decoded value is never negative; at the
other 2-byte addresses 105, 115 and 119 the raw value is the signed 16-bit
reading, `b2 + 256 * b3 - 65536` whenever `b3 >= 0x80`.  Address 113 with
payload `[0xE8, 0x03]` gives raw 1000, value 100. -/
theorem unsigned16_exception (cfg : DataFieldConfig) (b2 b3 : Byte) (rest : List Byte)
    (hc : cfg ∈ TARGET_FIELDS) (hs : cfg.size.val = 2) :
    (cfg.address.val ∈ [24, 26, 113, 220] ∨ cfg.address.val ∈ [105, 115, 119]) ∧
    (cfg.address.val ∈ [24, 26, 113, 220] →
      convertRaw cfg cfg.address.val (notificationOf cfg.address.val (b2 :: b3 :: rest))
        = (b2.val : Int) + 256 * b3.val ∧
      parsePacket (notificationOf cfg.address.val (b2 :: b3 :: rest))
        = ⟨cfg.address.val, calibrate cfg ((b2.val : Int) + 256 * b3.val), true⟩ ∧
      0 ≤ (parsePacket (notificationOf cfg.address.val (b2 :: b3 :: rest))).value) ∧
    (cfg.address.val ∈ [105, 115, 119] →
      convertRaw cfg cfg.address.val (notificationOf cfg.address.val (b2 :: b3 :: rest))
        = (if b3.val < 128 then (b2.val : Int) + 256 * b3.val
            else (b2.val : Int) + 256 * b3.val - 65536) ∧
      parsePacket (notificationOf cfg.address.val (b2 :: b3 :: rest))
        = ⟨cfg.address.val,
            calibrate cfg (if b3.val < 128 then (b2.val : Int) + 256 * b3.val
              else (b2.val : Int) + 256 * b3.val - 65536), true⟩) ∧
    convertRaw ⟨113, 2, F32.lit 10, F32.lit 0, "Volt", "V"⟩ 113 [0x71, 0x00, 0xE8, 0x03] = 1000 ∧
    parsePacket [0x71, 0x00, 0xE8, 0x03] = ⟨113, 100, true⟩ := by
  have hparse := parsePacket_notificationOf hc (b2 :: b3 :: rest)
    (by rw [hs]; simp)
  have hconv : convertRaw cfg cfg.address.val (notificationOf cfg.address.val (b2 :: b3 :: rest))
      = _ := convertRaw_two hs cfg.address.val _ _ b2 b3 rest
  refine ⟨?_, ?_, ?_, ?_, parsePacket_volt_example⟩
  · simp only [TARGET_FIELDS, List.mem_cons, List.mem_singleton, List.not_mem_nil, or_false] at hc
    rcases hc with h | h | h | h | h | h | h | h <;> subst h <;>
      first | decide | (exact absurd hs (by decide))
  · intro ha
    have hu : cfg.address.val = 24 ∨ cfg.address.val = 26 ∨ cfg.address.val = 113
        ∨ cfg.address.val = 220 := by simpa using ha
    rw [if_pos hu] at hconv
    rw [hparse, hconv]
    refine ⟨rfl, rfl, ?_⟩
    apply calibrate_nonneg (target_unsigned_offset hc ha)
      (le_trans zero_le_one (target_constants hc).2.1)
    omega
  · intro ha
    have hu : ¬ (cfg.address.val = 24 ∨ cfg.address.val = 26 ∨ cfg.address.val = 113
        ∨ cfg.address.val = 220) := by
      simp only [List.mem_cons, List.mem_singleton, List.not_mem_nil, or_false] at ha
      omega
    rw [if_neg hu] at hconv
    rw [hparse, hconv]
    exact ⟨rfl, rfl⟩
  · rw [convertRaw_two rfl]
    decide

/-- C3, witness: the entry of address 105 (RPM, signed) with payload
`[0x00, 0x80]` reads as -32768, and the entry of address 220 (unsigned) with
the same payload as 32768. -/
theorem unsigned16_exception_witness :
    convertRaw ⟨105, 2, F32.lit 1, F32.lit 0, "RPM", "rpm"⟩ 105 [0x69, 0x00, 0x00, 0x80]
        = -32768 ∧
      convertRaw ⟨220, 2, F32.lit (7443 / 10), F32.lit 0, "Throt", "V"⟩ 220
        [0xDC, 0x00, 0x00, 0x80] = 32768 := by
  have h1 := (unsigned16_exception ⟨105, 2, F32.lit 1, F32.lit 0, "RPM", "rpm"⟩ 0x00 0x80 []
    (by simp [TARGET_FIELDS]) rfl).2.2.1 (by decide)
  have h2 := (unsigned16_exception ⟨220, 2, F32.lit (7443 / 10), F32.lit 0, "Throt", "V"⟩
    0x00 0x80 [] (by simp [TARGET_FIELDS]) rfl).2.1 (by decide)
  exact ⟨h1.1, h2.1⟩

/-- The 1-byte field 222 is read unsigned and calibrated exactly. -/
theorem parsePacket_temperature (x : Byte) :
    parsePacket [0xDE, 0x00, x] = ⟨222, ((x.val : ℚ) - 40) / 1, true⟩ := by
  have hx := x.isLt
  have hmem : (⟨222, 1, F32.lit 1, F32.lit 40, "Temp", "C"⟩ : DataFieldConfig)
      ∈ TARGET_FIELDS := by simp [TARGET_FIELDS]
  have h := parsePacket_notificationOf hmem [x] (Nat.le_refl 1)
  have hpkt : notificationOf (222 : Fin 65536).val [x] = [0xDE, 0x00, x] := by
    simp [notificationOf]
    decide
  have hconv : convertRaw ⟨222, 1, F32.lit 1, F32.lit 40, "Temp", "C"⟩
      (222 : Fin 65536).val [0xDE, 0x00, x] = (x.val : Int) := by
    rw [convertRaw_one rfl]
    exact if_pos rfl
  have hv : calibrate ⟨222, 1, F32.lit 1, F32.lit 40, "Temp", "C"⟩ (x.val : Int)
      = f32Round ((((x.val : Int) : ℚ) - F32.lit 40) / F32.lit 1) :=
    calibrate_eq (Or.inr F32.lit_forty) (by omega)
  have he : ((((x.val : Int) : ℚ) - F32.lit 40) / F32.lit 1)
      = (((x.val : Int) - 40 : ℤ) : ℚ) := by
    rw [F32.lit_forty, F32.lit_one]
    push_cast
    ring
  have hr := f32Round_intCast ((x.val : Int) - 40) (by rw [abs_lt]; omega)
  rw [hpkt, hconv, hv, he, hr] at h
  rw [h]
  push_cast
  norm_num
  rfl

/-- C4: 1-byte signedness exception.  A 1-byte field at address 222 is read
as an unsigned byte: the packet `[0xDE, 0x00, x]` decodes to valid=true with
value `(x - 40) / 1` for `x` in 0..255, and byte 0x28 gives 0.  A 1-byte field
at any other address, in any field table, is read as a signed byte, so that
the byte 0xFF gives the raw value -1 before calibration. -/
theorem byte_signedness_exception (x : Byte) :
    parsePacket [0xDE, 0x00, x] = ⟨222, ((x.val : ℚ) - 40) / 1, true⟩ ∧
    convertRaw ⟨222, 1, F32.lit 1, F32.lit 40, "Temp", "C"⟩ 222 [0xDE, 0x00, x] = (x.val : Int) ∧
    parsePacket [0xDE, 0x00, 0x28] = ⟨222, 0, true⟩ ∧
    (∀ (fields : List DataFieldConfig) (cfg : DataFieldConfig) (lo hi : Byte) (rest : List Byte),
      findConfig fields (headerAddress (lo :: hi :: x :: rest)) = some cfg →
      cfg.size.val = 1 → headerAddress (lo :: hi :: x :: rest) ≠ 222 →
      convertRaw cfg (headerAddress (lo :: hi :: x :: rest)) (lo :: hi :: x :: rest)
        = (if x.val < 128 then (x.val : Int) else (x.val : Int) - 256) ∧
      parsePacketIn fields (lo :: hi :: x :: rest)
        = ⟨headerAddress (lo :: hi :: x :: rest),
            calibrate cfg (if x.val < 128 then (x.val : Int) else (x.val : Int) - 256), true⟩) ∧
    (∀ (cfg : DataFieldConfig) (a : Nat) (lo hi : Byte) (rest : List Byte),
      cfg.size.val = 1 → a ≠ 222 → convertRaw cfg a (lo :: hi :: 0xFF :: rest) = -1) := by
  refine ⟨parsePacket_temperature x, ?_, ?_, ?_, ?_⟩
  · rw [convertRaw_one rfl, if_pos rfl]
  · have h40 : (0x28 : Byte).val = 40 := rfl
    rw [parsePacket_temperature 0x28, h40]
    norm_num
  · intro fields cfg lo hi rest hf hs ha
    rw [convertRaw_one hs, if_neg ha]
    refine ⟨rfl, ?_⟩
    rw [parsePacketIn_decoded (by simp) hf (by rw [hs]; simp), convertRaw_one hs, if_neg ha]
  · intro cfg a lo hi rest hs ha
    rw [convertRaw_one hs, if_neg ha]
    decide

/-- C4, witness: in a table with a signed 1-byte field at address 223 the
packet `[0xDF, 0x00, 0xFF]` has the raw value -1. -/
theorem byte_signedness_exception_witness :
    findConfig signedByteFields (headerAddress [0xDF, 0x00, 0xFF])
        = some ⟨223, 1, F32.lit 1, F32.lit 0, "MotorTemp", "C"⟩ ∧
      headerAddress [0xDF, 0x00, 0xFF] ≠ 222 ∧
      convertRaw ⟨223, 1, F32.lit 1, F32.lit 0, "MotorTemp", "C"⟩ 223 [0xDF, 0x00, 0xFF] = -1 ∧
      parsePacketIn signedByteFields [0xDF, 0x00, 0xFF]
        = ⟨223, calibrate ⟨223, 1, F32.lit 1, F32.lit 0, "MotorTemp", "C"⟩ (-1), true⟩ := by
  have h := (byte_signedness_exception 0xFF).2.2.2.1 signedByteFields
    ⟨223, 1, F32.lit 1, F32.lit 0, "MotorTemp", "C"⟩ 0xDF 0x00 [] rfl rfl (by decide)
  exact ⟨rfl, by decide, h.1, h.2⟩

/-! ## The decoded values stay in the finite range of binary32 -/

theorem convertRaw_bound {cfg : DataFieldConfig} (hs : cfg.size.val = 1 ∨ cfg.size.val = 2)
    (a : Nat) (data : List Byte) :
    -32768 ≤ convertRaw cfg a data ∧ convertRaw cfg a data < 65536 := by
  have h2 := byteAt_lt data 2
  unfold convertRaw toUInt8 toInt8 toUInt16 toInt16
  rcases hs with h | h
  · rw [if_pos h]
    split_ifs <;> omega
  · rw [if_neg (by omega), if_pos h]
    simp only []
    split_ifs <;> omega

/-- Every value that `parsePacket` returns is far below `2 ^ 128`, where
binary32 would overflow: the rounding model is used inside its range only. -/
theorem parsePacket_value_bound (data : List Byte) :
    |(parsePacket data).value| < 2 ^ 128 := by
  unfold parsePacket
  rcases Nat.lt_or_ge data.length 3 with hlen | hlen
  · rw [parsePacketIn_short hlen]
    norm_num
  · cases hf : findConfig TARGET_FIELDS (headerAddress data) with
    | none =>
      rw [parsePacketIn_unknown hlen hf]
      norm_num
    | some cfg =>
      rcases Nat.lt_or_ge data.length (2 + cfg.size.val) with hs | hs
      · rw [parsePacketIn_truncated hlen hf hs]
        norm_num
      · rw [parsePacketIn_decoded hlen hf hs]
        have hc := (findConfig_some hf).1
        obtain ⟨hb, hk1, hk2⟩ := target_constants hc
        have hraw := convertRaw_bound (target_sizes hc).2 (headerAddress data) data
        show |calibrate cfg (convertRaw cfg (headerAddress data) data)| < 2 ^ 128
        rw [calibrate_eq hb hraw]
        generalize convertRaw cfg (headerAddress data) data = raw at hraw
        have hk : 0 < cfg.k := lt_of_lt_of_le one_pos hk1
        have key : ∀ x : ℤ, |x| ≤ 65575 → |f32Round ((x : ℚ) / cfg.k)| < 2 ^ 128 := by
          intro x hx
          have herr := abs_f32Round_quotient_le x hk1 hk2
          have hxq : |(x : ℚ)| ≤ 65575 := by exact_mod_cast hx
          have hq : |(x : ℚ) / cfg.k| ≤ 65575 := by
            rw [abs_div, abs_of_pos hk]
            exact le_trans (div_le_self (abs_nonneg _) hk1) hxq
          have h1 : |f32Round ((x : ℚ) / cfg.k)| ≤
              |f32Round ((x : ℚ) / cfg.k) - (x : ℚ) / cfg.k| + |(x : ℚ) / cfg.k| := by
            have := abs_add (f32Round ((x : ℚ) / cfg.k) - (x : ℚ) / cfg.k) ((x : ℚ) / cfg.k)
            simpa using this
          have h2 : |(x : ℚ) / cfg.k| / 2 ^ 24 ≤ |(x : ℚ) / cfg.k| :=
            div_le_self (abs_nonneg _) (by norm_num)
          have h3 : (2 * 65575 : ℚ) < 2 ^ 128 := by norm_num
          linarith
        rcases hb with hb | hb <;> rw [hb]
        · have := key raw (by rw [abs_le]; omega)
          simpa using this
        · have := key (raw - 40) (by rw [abs_le]; omega)
          push_cast at this
          exact this

/-! ## Claims on the command encoders -/

/-- C5: for every sub-command byte `s`, `createControlCommand s` is exactly
the 3-byte sequence `[0x0B, 0x00, s]`; in particular
`createControlCommand 1 = [0x0B, 0x00, 0x01]`. -/
theorem createControlCommand_eq (s : Byte) :
    createControlCommand s = [0x0B, 0x00, s] ∧
      createControlCommand s
        = [toByte (ADDR_CONTROL &&& 0xFF), toByte ((ADDR_CONTROL >>> 8) &&& 0x1F), s] ∧
      (createControlCommand s).length = 3 ∧
      createControlCommand 1 = [0x0B, 0x00, 0x01] :=
  ⟨rfl, rfl, rfl, rfl⟩

/-- The high byte of the setup payload after both masks. -/
theorem high_mask (a : Nat) :
    toByte ((toByte ((a >>> 8) &&& 0xFF)).val &&& 0x1F) = toByte ((a >>> 8) &&& 0x1F) := by
  have h1 : (a >>> 8) &&& 0xFF < 256 := lt_of_le_of_lt Nat.and_le_right (by norm_num)
  have h2 : (0xFF &&& 0x1F : Nat) = 0x1F := by decide
  rw [toByte_of_lt h1, Nat.and_assoc, h2]

/-- A value masked with `0x1F` has its top three bits clear. -/
theorem mask_clear (y : Nat) : (toByte (y &&& 0x1F)).val &&& 0xE0 = 0 := by
  have h1 : y &&& 0x1F < 256 := lt_of_le_of_lt Nat.and_le_right (by norm_num)
  have h2 : (0x1F &&& 0xE0 : Nat) = 0 := by decide
  rw [toByte_of_lt h1, Nat.and_assoc, h2, Nat.and_zero]

/-- C6: for every 16-bit address `a` and size byte `n`,
`createChannelSetupCommand a n` is exactly the 5-byte sequence
`[0x0C, 0x00, a & 0xFF, (a >> 8) & 0x1F, n]`, so the top three bits of the
bytes at index 1 and index 3 are clear. -/
theorem createChannelSetupCommand_eq (a : Fin 65536) (n : Byte) :
    createChannelSetupCommand a n
        = [0x0C, 0x00, toByte (a.val &&& 0xFF), toByte ((a.val >>> 8) &&& 0x1F), n] ∧
      (createChannelSetupCommand a n).length = 5 ∧
      ((createChannelSetupCommand a n).getD 1 0).val &&& 0xE0 = 0 ∧
      ((createChannelSetupCommand a n).getD 3 0).val &&& 0xE0 = 0 := by
  have h : createChannelSetupCommand a n
      = [0x0C, 0x00, toByte (a.val &&& 0xFF), toByte ((a.val >>> 8) &&& 0x1F), n] := by
    unfold createChannelSetupCommand
    simp only [high_mask, List.nil_append, List.cons_append]
    rfl
  have h0 : (0x00 : Byte).val &&& 0xE0 = 0 := by decide
  refine ⟨h, by rw [h]; rfl, by rw [h]; exact h0, ?_⟩
  rw [h]
  exact mask_clear _

/-! ## Flag bits -/

set_option maxRecDepth 100000 in
theorem setFlags_mask (hi : Byte) (flags : Fin 8) :
    (setFlags hi flags).val &&& 0x1F = hi.val &&& 0x1F := by
  revert hi flags
  decide

theorem convertRaw_header (cfg : DataFieldConfig) (a : Nat) (lo hi hi2 : Byte)
    (rest : List Byte) :
    convertRaw cfg a (lo :: hi2 :: rest) = convertRaw cfg a (lo :: hi :: rest) := by
  unfold convertRaw
  simp only [byteAt, List.getD_cons_succ]

/-- The decoder reads the byte at index 1 only through its low five bits. -/
theorem parsePacketIn_flags (fields : List DataFieldConfig) (lo hi hi2 : Byte)
    (rest : List Byte) (h : hi2.val &&& 0x1F = hi.val &&& 0x1F) :
    parsePacketIn fields (lo :: hi2 :: rest) = parsePacketIn fields (lo :: hi :: rest) := by
  have ha : headerAddress (lo :: hi2 :: rest) = headerAddress (lo :: hi :: rest) := by
    rw [headerAddress_cons, headerAddress_cons, h]
  rcases Nat.lt_or_ge (lo :: hi :: rest).length 3 with hlen | hlen
  · rw [parsePacketIn_short hlen, parsePacketIn_short (by simpa using hlen)]
  · rw [parsePacketIn_long hlen, parsePacketIn_long (by simpa using hlen), ha]
    simp only [convertRaw_header _ _ lo hi hi2 rest, List.length_cons]

/-- C7: flag bits do not influence decoding.  Replacing the top three bits
(mask `0xE0`) of the byte at index 1 of any packet leaves address, value and
valid flag of `parsePacket` unchanged; for a packet of at least 3 bytes the
reported address is `((data[1] & 0x1F) << 8) | data[0]`, which is below 8192. -/
theorem flags_do_not_influence (data : List Byte) (flags : Fin 8) :
    parsePacket (replaceFlags data flags) = parsePacket data ∧
      (3 ≤ data.length →
        (parsePacket data).address = ((byteAt data 1 &&& 0x1F) <<< 8) ||| byteAt data 0) ∧
      (parsePacket data).address < 8192 := by
  refine ⟨?_, ?_, ?_⟩
  · match data with
    | [] => rfl
    | [_] => rfl
    | lo :: hi :: rest =>
      exact parsePacketIn_flags TARGET_FIELDS lo hi (setFlags hi flags) rest (setFlags_mask hi flags)
  · intro hlen
    unfold parsePacket
    rw [parsePacketIn_long hlen]
    cases findConfig TARGET_FIELDS (headerAddress data) with
    | none => rfl
    | some cfg => simp only []; split_ifs <;> rfl
  · unfold parsePacket
    rcases Nat.lt_or_ge data.length 3 with hlen | hlen
    · rw [parsePacketIn_short hlen]
      norm_num
    · rw [parsePacketIn_long hlen]
      have := headerAddress_lt data
      cases findConfig TARGET_FIELDS (headerAddress data) with
      | none => exact this
      | some cfg => simp only []; split_ifs <;> exact this

/-- C7, witness: the packet `[0x18, 0x00, 0x25, 0x03]` with all three flag
bits set is `[0x18, 0xE0, 0x25, 0x03]` and decodes to the same reading, with
the address 24. -/
theorem flags_do_not_influence_witness :
    replaceFlags [0x18, 0x00, 0x25, 0x03] 7 = [0x18, 0xE0, 0x25, 0x03] ∧
      parsePacket (replaceFlags [0x18, 0x00, 0x25, 0x03] 7) = parsePacket [0x18, 0x00, 0x25, 0x03] ∧
      3 ≤ ([0x18, 0x00, 0x25, 0x03] : List Byte).length ∧
      (parsePacket [0x18, 0x00, 0x25, 0x03]).address = 24 :=
  ⟨by decide, (flags_do_not_influence [0x18, 0x00, 0x25, 0x03] 7).1, by decide,
    (flags_do_not_influence [0x18, 0x00, 0x25, 0x03] 7).2.1 (by decide)⟩

/-! ## Claims on the BLE client manager -/

/-- C8: handshake order.  With a write characteristic, `configureDataStream`
issues exactly `3 + NUM_FIELDS = 11` writes: stop (`createControlCommand 0`),
clear (`createControlCommand 255`), one `createChannelSetupCommand` per entry
of `TARGET_FIELDS` in table order (24, 26, 105, 113, 115, 119, 220, 222), and
start (`createControlCommand 1`) last; without a write characteristic it
issues no write, and does nothing at all. -/
theorem configureDataStream_writes (m : BleClientManager) :
    (m.pWriteChar = true →
      writesOf (configureDataStream m)
        = [createControlCommand 0, createControlCommand 255]
          ++ TARGET_FIELDS.map (fun f => createChannelSetupCommand f.address f.size)
          ++ [createControlCommand 1] ∧
      (writesOf (configureDataStream m)).length = 3 + NUM_FIELDS ∧
      3 + NUM_FIELDS = 11 ∧
      TARGET_FIELDS.map (fun f => f.address.val) = [24, 26, 105, 113, 115, 119, 220, 222] ∧
      writesOf (configureDataStream m)
        = [[0x0B, 0x00, 0x00], [0x0B, 0x00, 0xFF],
            [0x0C, 0x00, 24, 0x00, 2], [0x0C, 0x00, 26, 0x00, 2], [0x0C, 0x00, 105, 0x00, 2],
            [0x0C, 0x00, 113, 0x00, 2], [0x0C, 0x00, 115, 0x00, 2], [0x0C, 0x00, 119, 0x00, 2],
            [0x0C, 0x00, 220, 0x00, 2], [0x0C, 0x00, 222, 0x00, 1],
            [0x0B, 0x00, 0x01]]) ∧
    (m.pWriteChar = false →
      configureDataStream m = [] ∧ writesOf (configureDataStream m) = []) := by
  constructor
  · intro h
    have hw : writesOf (configureDataStream m)
        = [createControlCommand 0, createControlCommand 255]
          ++ TARGET_FIELDS.map (fun f => createChannelSetupCommand f.address f.size)
          ++ [createControlCommand 1] := by
      unfold configureDataStream
      rw [h]
      rfl
    refine ⟨hw, ?_, rfl, rfl, ?_⟩
    · rw [hw]
      rfl
    · rw [hw]
      rfl
  · intro h
    have he : configureDataStream m = [] := by
      unfold configureDataStream
      rw [h]
      rfl
    rw [he]
    exact ⟨rfl, rfl⟩

/-- C8, witness: a manager whose write characteristic was discovered issues
11 writes, a fresh manager none. -/
theorem configureDataStream_writes_witness :
    (writesOf (configureDataStream { pWriteChar := true })).length = 11 ∧
      writesOf (configureDataStream { pWriteChar := false }) = [] :=
  ⟨((configureDataStream_writes { pWriteChar := true }).1 rfl).2.1,
    ((configureDataStream_writes { pWriteChar := false }).2 rfl).2⟩

/-- C9, as the specification states it, fails: after a first `startScan` the
manager is Scanning and not connected, and the second `startScan` is not a
no-op; it starts the scan again, so the two calls issue two scan starts. -/
theorem startScan_twice_counterexample :
    (startScan { }).1.isScanning = true ∧ (startScan { }).1.isConnected = false ∧
      (startScan (startScan { }).1).2 ≠ [] ∧
      scanStartsOf ((startScan { }).2 ++ (startScan (startScan { }).1).2) = 2 := by
  decide

/-- C9, amended: `startScan` is guarded by `isConnected` only.  While not
connected every call configures and starts the scan once and sets
`isScanning`, also when the manager is already Scanning: a second call issues
a second scan start and leaves the state of the first call unchanged.  While
connected the call does nothing. -/
theorem startScan_guard (m : BleClientManager) :
    (m.isConnected = false →
      startScan m = ({ m with isScanning := true },
        [Effect.scanSetInterval 45, Effect.scanSetWindow 15, Effect.scanSetActiveScan true,
          Effect.scanStart 0]) ∧
      scanStartsOf (startScan m).2 = 1 ∧
      (startScan (startScan m).1).1 = (startScan m).1 ∧
      scanStartsOf ((startScan m).2 ++ (startScan (startScan m).1).2) = 2) ∧
    (m.isConnected = true → startScan m = (m, [])) := by
  constructor
  · intro h
    have h1 : startScan m = ({ m with isScanning := true },
        [Effect.scanSetInterval 45, Effect.scanSetWindow 15, Effect.scanSetActiveScan true,
          Effect.scanStart 0]) := by
      unfold startScan
      rw [h]
      rfl
    have h2 : startScan { m with isScanning := true } = ({ m with isScanning := true },
        [Effect.scanSetInterval 45, Effect.scanSetWindow 15, Effect.scanSetActiveScan true,
          Effect.scanStart 0]) := by
      unfold startScan
      simp only [h]
      rfl
    refine ⟨h1, ?_, ?_, ?_⟩
    · rw [h1]
      rfl
    · rw [h1, h2]
    · rw [h1, h2]
      rfl
  · intro h
    unfold startScan
    rw [h]
    rfl

/-- C9 amended, witness: a manager that is Scanning and not connected. -/
theorem startScan_guard_witness :
    scanStartsOf (startScan { isScanning := true }).2 = 1 ∧
      startScan { isConnected := true } = ({ isConnected := true }, []) :=
  ⟨((startScan_guard { isScanning := true }).1 rfl).2.1,
    (startScan_guard { isConnected := true }).2 rfl⟩

theorem consumerCallsOf_append (t1 t2 : List Effect) :
    consumerCallsOf (t1 ++ t2) = consumerCallsOf t1 ++ consumerCallsOf t2 := by
  unfold consumerCallsOf
  exact List.filterMap_append _ _ _

theorem notifyCallback_registered {m : BleClientManager} (hreg : m.onDataReceived = true)
    (pData : List Byte) :
    notifyCallback (some m) pData =
      if (parsePacket pData).valid then
        [Effect.onDataReceived (parsePacket pData).address (parsePacket pData).value]
      else [] := by
  unfold notifyCallback
  simp only [hreg, Bool.and_true]

/-- C10: dispatch exactly once.  With a consumer registered, `notifyCallback`
calls `onDataReceived` exactly once, with the address and value of the result
of `parsePacket`, when that result is valid, and not at all when it is not;
for a sequence of notifications the consumer calls are the valid decodings in
arrival order. -/
theorem notifyCallback_dispatch (m : BleClientManager) (pData : List Byte)
    (packets : List (List Byte)) (hreg : m.onDataReceived = true) :
    ((parsePacket pData).valid = true →
      notifyCallback (some m) pData
        = [Effect.onDataReceived (parsePacket pData).address (parsePacket pData).value] ∧
      consumerCallsOf (notifyCallback (some m) pData)
        = [((parsePacket pData).address, (parsePacket pData).value)]) ∧
    ((parsePacket pData).valid = false → notifyCallback (some m) pData = []) ∧
    (pData.length < 3 ∨ findConfig TARGET_FIELDS (headerAddress pData) = none ∨
        (∃ cfg, findConfig TARGET_FIELDS (headerAddress pData) = some cfg ∧
          pData.length < 2 + cfg.size.val) →
      notifyCallback (some m) pData = []) ∧
    consumerCallsOf (deliverNotifications (some m) packets)
      = ((packets.map parsePacket).filter (fun d => d.valid)).map
          (fun d => (d.address, d.value)) := by
  have hinv : (parsePacket pData).valid = false → notifyCallback (some m) pData = [] := by
    intro hv
    rw [notifyCallback_registered hreg, hv]
    rfl
  refine ⟨?_, hinv, ?_, ?_⟩
  · intro hv
    rw [notifyCallback_registered hreg, hv]
    exact ⟨rfl, rfl⟩
  · intro hbad
    apply hinv
    unfold parsePacket
    rcases Nat.lt_or_ge pData.length 3 with hlen | hlen
    · rw [parsePacketIn_short hlen]
    · rcases hbad with h | h | ⟨cfg, hf, hs⟩
      · omega
      · rw [parsePacketIn_unknown hlen h]
      · rw [parsePacketIn_truncated hlen hf hs]
  · induction packets with
    | nil => rfl
    | cons p ps ih =>
      have hcons : deliverNotifications (some m) (p :: ps)
          = notifyCallback (some m) p ++ deliverNotifications (some m) ps := by
        simp [deliverNotifications]
      rw [hcons, consumerCallsOf_append, ih, notifyCallback_registered hreg, List.map_cons,
        List.filter_cons]
      cases hv : (parsePacket p).valid <;> simp [consumerCallsOf]

/-- C10, witness: of three notifications the malformed second one (2 bytes)
is dropped, the other two reach the consumer in arrival order. -/
theorem notifyCallback_dispatch_witness :
    consumerCallsOf (deliverNotifications (some { onDataReceived := true })
        [[0xDE, 0x00, 0x29], [0x18, 0x00], [0xDE, 0x00, 0x28]])
      = [(222, 1), (222, 0)] := by
  have h := (notifyCallback_dispatch { onDataReceived := true } []
    [[0xDE, 0x00, 0x29], [0x18, 0x00], [0xDE, 0x00, 0x28]] rfl).2.2.2
  have h2 : parsePacket [0x18, 0x00] = ⟨0, 0, false⟩ := rfl
  have h41 : (0x29 : Byte).val = 41 := rfl
  have h40 : (0x28 : Byte).val = 40 := rfl
  rw [h]
  simp only [List.map, List.filter, parsePacket_temperature, h2, h40, h41]
  norm_num

/-! ## Claims on the connection sequence -/

/-- The three results of `connectToServer`: transport connect failed, service
not found, service found. -/
theorem connectToServer_eq (m : BleClientManager) (o : ConnectOutcome) :
    connectToServer m o =
      if o.connectOk then
        if o.serviceFound then
          ({ m with pClient := true, isConnected := true, pService := true,
                    pWriteChar := o.writeCharFound, pNotifyChar := o.notifyCharFound },
            true,
            [Effect.createClient, Effect.connect, Effect.getService SERVICE_UUID,
              Effect.getCharacteristic WRITE_CHAR_UUID, Effect.getCharacteristic NOTIFY_CHAR_UUID]
              ++ (if o.notifyCharFound && o.canNotify then [Effect.subscribe true] else []))
        else
          ({ m with pClient := true, isConnected := true, pService := false }, false,
            [Effect.createClient, Effect.connect, Effect.getService SERVICE_UUID])
      else ({ m with pClient := true }, false, [Effect.createClient, Effect.connect]) := by
  rcases o with ⟨c, sv, w, n, k⟩
  cases c <;> cases sv <;> cases n <;> cases k <;> rfl

theorem configureDataStream_eq (m : BleClientManager) :
    configureDataStream m =
      if m.pWriteChar then configureDataStream { pWriteChar := true } else [] := by
  unfold configureDataStream
  cases m.pWriteChar <;> rfl

theorem onResult_unmatched (m : BleClientManager) (name : String) (o : ConnectOutcome)
    (h : isMatchingName name = false) : onResult m name o = (m, []) := by
  unfold isMatchingName at h
  unfold onResult
  by_cases hl : name.length > 0
  · simp only [hl, decide_True, Bool.true_and, Bool.or_eq_false_iff] at h
    obtain ⟨⟨h1, h2⟩, h3⟩ := h
    simp [hl, h1, h2, h3]
  · simp [hl]

theorem onResult_matched (m : BleClientManager) (name : String) (o : ConnectOutcome)
    (h : isMatchingName name = true) :
    onResult m name o =
      if (connectToServer m o).2.1 then
        ((connectToServer m o).1,
          [Effect.scanStop, Effect.updateStatus "Connecting..." "TFT_BLUE"]
            ++ (connectToServer m o).2.2
            ++ [Effect.updateStatus "Connected!" "TFT_GREEN", Effect.delay 500,
                Effect.updateStatus "Configuring..." "TFT_ORANGE"]
            ++ configureDataStream (connectToServer m o).1
            ++ [Effect.updateStatus "Active" "TFT_GREEN"])
      else
        ((connectToServer m o).1,
          [Effect.scanStop, Effect.updateStatus "Connecting..." "TFT_BLUE"]
            ++ (connectToServer m o).2.2
            ++ [Effect.updateStatus "Failed" "TFT_RED", Effect.delay 1000,
                Effect.updateStatus "Scanning..." "TFT_MAGENTA", Effect.scanStart 0]) := by
  unfold isMatchingName at h
  simp only [Bool.and_eq_true, decide_eq_true_eq, Bool.or_eq_true] at h
  obtain ⟨hl, hm⟩ := h
  have hmatch : (if nameContains name "cj-power" = true then true
      else if nameContains name "cjpower" = true then true
      else if nameContains name "speed" = true then true else false) = true := by
    rcases hm with (h1 | h2) | h3
    · simp [h1]
    · simp [h2]
    · simp [h3]
  unfold onResult
  simp only [hl, if_true, hmatch]

/-- The trace of `onResult` for a matching device depends on the answers of
the stack only, not on the state of the manager or on the name. -/
theorem onResult_trace_eq (m : BleClientManager) (name : String) (o : ConnectOutcome)
    (h : isMatchingName name = true) :
    (onResult m name o).2 = (onResult { } "speed" o).2 := by
  have hs : isMatchingName "speed" = true := by decide
  rw [onResult_matched m name o h, onResult_matched { } "speed" o hs, connectToServer_eq,
    connectToServer_eq]
  rcases o with ⟨c, sv, w, n, k⟩
  cases c <;> cases sv <;> cases w <;> cases n <;> cases k <;> rfl

/-- A trace with at most one report of "Active", split at such a report: the
part before it is the part before the first report. -/
theorem split_at_active {T pre post : List Effect} {e : Effect}
    (h : T = pre ++ e :: post) (he : isActiveStatus e = true)
    (hcount : T.countP isActiveStatus ≤ 1) :
    T.countP isActiveStatus = 1 ∧ pre = T.takeWhile (fun a => !isActiveStatus a) := by
  have hc : T.countP isActiveStatus
      = pre.countP isActiveStatus + (post.countP isActiveStatus + 1) := by
    rw [h, List.countP_append, List.countP_cons_of_pos _ _ he]
  have hpre : pre.countP isActiveStatus = 0 := by omega
  have hall : ∀ a ∈ pre, (fun a => !isActiveStatus a) a = true := by
    intro a ha
    have := (List.countP_eq_zero.mp hpre) a ha
    simpa using this
  refine ⟨by omega, ?_⟩
  rw [h, List.takeWhile_append_of_pos hall, List.takeWhile_cons_of_neg (by simp [he]),
    List.append_nil]

/-- C11, as the specification states it, fails: for a matching device with
connect and service discovery successful but no write characteristic found,
`onResult` reports "Active" although no configuration command was written. -/
theorem active_without_handshake_counterexample :
    isMatchingName "speed" = true ∧
      (connectToServer { } ⟨true, true, false, true, true⟩).2.1 = true ∧
      (onResult { } "speed" ⟨true, true, false, true, true⟩).2
        = (onResult { } "speed" ⟨true, true, false, true, true⟩).2.dropLast
          ++ Effect.updateStatus "Active" "TFT_GREEN" :: [] ∧
      isActiveStatus (Effect.updateStatus "Active" "TFT_GREEN") = true ∧
      writesOf (onResult { } "speed" ⟨true, true, false, true, true⟩).2.dropLast = [] ∧
      writesOf (onResult { } "speed" ⟨true, true, false, true, true⟩).2.dropLast
        ≠ handshakeWrites := by
  decide

/-- C11, amended: whenever `onResult` reports the status "Active", the device
matches, the connect succeeded and the service was found; and if the write
characteristic was found, all configuration commands (stop, clear, one channel
setup per entry of `TARGET_FIELDS` in table order, start) have been written
before that point. -/
theorem active_after_handshake (m : BleClientManager) (name : String) (o : ConnectOutcome)
    (pre post : List Effect) (e : Effect)
    (hsplit : (onResult m name o).2 = pre ++ e :: post) (hact : isActiveStatus e = true) :
    isMatchingName name = true ∧ o.connectOk = true ∧ o.serviceFound = true ∧
      (connectToServer m o).2.1 = true ∧
      (o.writeCharFound = true →
        (connectToServer m o).1.pWriteChar = true ∧ writesOf pre = handshakeWrites) := by
  have hm : isMatchingName name = true := by
    cases hm : isMatchingName name with
    | true => rfl
    | false =>
      rw [onResult_unmatched m name o hm] at hsplit
      simp at hsplit
  rw [onResult_trace_eq m name o hm] at hsplit
  rw [connectToServer_eq]
  rcases o with ⟨c, sv, w, n, k⟩
  cases c <;> cases sv <;> cases w <;> cases n <;> cases k <;>
    obtain ⟨hone, hpre⟩ := split_at_active hsplit hact (by decide) <;>
    first
      | exact absurd hone (by decide)
      | (refine ⟨hm, rfl, rfl, rfl, fun hw => ?_⟩
         first
           | exact absurd hw (by decide)
           | (rw [hpre]; exact ⟨rfl, by decide⟩))

/-- C11 amended, witness: all five answers of the stack positive; the trace
of `onResult` ends with the report of "Active", after the 11 writes. -/
theorem active_after_handshake_witness :
    (onResult { } "cj-power 01" ⟨true, true, true, true, true⟩).2
        = (onResult { } "cj-power 01" ⟨true, true, true, true, true⟩).2.dropLast
          ++ Effect.updateStatus "Active" "TFT_GREEN" :: [] ∧
      writesOf (onResult { } "cj-power 01" ⟨true, true, true, true, true⟩).2.dropLast
        = handshakeWrites :=
  ⟨by decide,
    ((active_after_handshake { } "cj-power 01" ⟨true, true, true, true, true⟩
      (onResult { } "cj-power 01" ⟨true, true, true, true, true⟩).2.dropLast []
      (Effect.updateStatus "Active" "TFT_GREEN") (by decide) rfl).2.2.2.2 rfl).2⟩

/-- C12, at the failing input: the transport connect succeeds and the service
is not found.  `connectToServer` returns false, yet the manager is marked
connected, and the next `startScan` returns at its guard without a scan start. -/
theorem connectToServer_service_missing :
    ({ } : BleClientManager).isConnected = false ∧
      (connectToServer { } ⟨true, false, false, false, false⟩).2.1 = false ∧
      (connectToServer { } ⟨true, false, false, false, false⟩).1.isConnected = true ∧
      (startScan (connectToServer { } ⟨true, false, false, false, false⟩).1).2 = [] ∧
      scanStartsOf (startScan (connectToServer { } ⟨true, false, false, false, false⟩).1).2
        = 0 := by
  decide

/-- What holds of `connectToServer` on every path: a return value true means
marked connected; the flag afterwards is set exactly when it was set before or
the transport connect succeeded; and after a failed transport connect from a
manager that is not connected, `startScan` starts the scan. -/
theorem connectToServer_flag (m : BleClientManager) (o : ConnectOutcome) :
    ((connectToServer m o).2.1 = true → (connectToServer m o).1.isConnected = true) ∧
      ((connectToServer m o).2.1 = true ↔ (o.connectOk = true ∧ o.serviceFound = true)) ∧
      ((connectToServer m o).1.isConnected = (m.isConnected || o.connectOk)) ∧
      (m.isConnected = false → o.connectOk = false →
        (connectToServer m o).2.1 = false ∧ (connectToServer m o).1.isConnected = false ∧
        scanStartsOf (startScan (connectToServer m o).1).2 = 1) := by
  rw [connectToServer_eq]
  rcases o with ⟨c, sv, w, n, k⟩
  rcases m with ⟨ic, isc, pc, ps, pw, pn, od⟩
  cases c <;> cases sv <;> cases ic <;> simp [startScan, scanStartsOf]

end Harvtech
